import Mathlib

/-!
Shallow embedding of the request-admission and completion-routing subsystem
of the secure-enterprise-knowledge-hub repository, together with theorems
settling the behavioural claims about it.

Sources embedded:
- `app/llm/rate_limiter.py` — `InMemoryRateLimiter` (token bucket) and
  `TokenBudgetManager` (rolling daily quota);
- `app/llm/gateway.py` — `LLMGateway.complete` (provider failover loop),
  `LLMGateway._estimate_cost`, `LLMGateway.stream_complete`;
- `app/api/chat.py` — `chat_endpoint` (admission pipeline, usage recording)
  and `_stream_response` (SSE relay).

Python floats carrying time and token quantities are modelled as rationals
(the operations involved — addition, subtraction, division by constants,
`min`, comparisons — are the exact ones the algorithms rely on); Python ints
are `Int`; dictionaries keyed by user id are functions `String → Option _`.
-/

namespace KnowledgeHub

/-! ## InMemoryRateLimiter (`app/llm/rate_limiter.py` lines 37-122)

Per-user bucket: `{"tokens": <float>, "last_refill": <timestamp>}`.
The configured capacity (`RATE_LIMIT_PER_MINUTE`, read by `_get_limit`)
is passed explicitly as `limit`. -/

structure Bucket where
  tokens : ℚ
  last_refill : ℚ
deriving DecidableEq

/-- The bucket map `self._buckets` (a `defaultdict`). -/
def RLBuckets : Type := String → Option Bucket

/-- The `defaultdict` factory: a fresh bucket holds `tokens = limit` and
`last_refill = time.time()` at the moment of first access. -/
def freshBucket (limit now : ℚ) : Bucket :=
  ⟨limit, now⟩

/-- Reading `self._buckets[user_id]` at time `now`: returns the stored bucket,
materialising a fresh one on first access. -/
def bucketAt (limit : ℚ) (s : RLBuckets) (u : String) (now : ℚ) : Bucket :=
  (s u).getD (freshBucket limit now)

/-- Writing `self._buckets[user_id] = b`. -/
def updBuckets (s : RLBuckets) (u : String) (b : Bucket) : RLBuckets :=
  fun v => if v = u then some b else s v

/-- `InMemoryRateLimiter._refill_tokens` applied to one bucket:
`tokens_to_add = (elapsed / 60.0) * limit`;
`tokens = min(limit, tokens + tokens_to_add)`; `last_refill = now`. -/
def refill_tokens (limit : ℚ) (b : Bucket) (now : ℚ) : Bucket :=
  ⟨min limit (b.tokens + (now - b.last_refill) / 60 * limit), now⟩

/-- The body of `InMemoryRateLimiter.check_rate_limit` acting on the
principal's own bucket: refill first, then subtract `cost` iff
`bucket["tokens"] >= cost`.  Returns the `allowed` flag and the new bucket. -/
def bucket_check (limit : ℚ) (b : Bucket) (cost now : ℚ) : Bool × Bucket :=
  let r := refill_tokens limit b now
  if cost ≤ r.tokens then (true, ⟨r.tokens - cost, r.last_refill⟩)
  else (false, r)

/-- `InMemoryRateLimiter.check_rate_limit(user_id, cost)` at time `now`:
`_refill_tokens(user_id)` (which materialises the bucket), then the
allow/deny decision, mutating `self._buckets[user_id]`. -/
def check_rate_limit (limit : ℚ) (s : RLBuckets) (u : String) (cost now : ℚ) :
    Bool × RLBuckets :=
  let res := bucket_check limit (bucketAt limit s u now) cost now
  (res.1, updBuckets s u res.2)

/-- A sequence of `check_rate_limit` calls for one principal, acting on that
principal's bucket; each list entry is `(call time, cost)`.  Returns the final
bucket and the number of calls that were allowed. -/
def run_checks (limit : ℚ) : Bucket → List (ℚ × ℚ) → Bucket × ℕ
  | b, [] => (b, 0)
  | b, (t, c) :: rest =>
    let s := bucket_check limit b c t
    let r := run_checks limit s.2 rest
    (r.1, (if s.1 then 1 else 0) + r.2)

/-! ## TokenBudgetManager (`app/llm/rate_limiter.py` lines 125-251)

Per-user record `{"used": int, "limit": int, "reset_at": timestamp}`.
The configured daily limit (`TOKEN_BUDGET_DAILY`, read by `_get_daily_limit`)
is passed explicitly as `dailyLimit`. -/

structure BudgetRec where
  used : ℤ
  limit : ℤ
  reset_at : ℚ
deriving DecidableEq

/-- The budget map `self._budgets` (a plain dict). -/
def Budgets : Type := String → Option BudgetRec

/-- Writing `self._budgets[user_id] = b`. -/
def updBudgets (s : Budgets) (u : String) (b : BudgetRec) : Budgets :=
  fun v => if v = u then some b else s v

/-- `TokenBudgetManager.check_budget(user_id, estimated_tokens)` at time `now`:
initialise `{"used": 0, "limit": daily, "reset_at": now + 86400}` on first
sight; if `now > reset_at`, set `used = 0` and `reset_at = now + 86400`; allow
iff `limit - used >= estimated_tokens`.  The (possibly initialised/reset)
record is stored back in the map whether or not the check is allowed. -/
def check_budget (dailyLimit : ℤ) (s : Budgets) (u : String) (est : ℤ)
    (now : ℚ) : Bool × Budgets :=
  let b0 := (s u).getD ⟨0, dailyLimit, now + 86400⟩
  let b := if b0.reset_at < now then ⟨0, b0.limit, now + 86400⟩ else b0
  (decide (est ≤ b.limit - b.used), updBudgets s u b)

/-- `TokenBudgetManager.record_usage(user_id, tokens_used)` at time `now`:
initialise the record if absent, then `used += tokens_used`.  No reset check
is performed here. -/
def record_usage (dailyLimit : ℤ) (s : Budgets) (u : String) (tokens : ℤ)
    (now : ℚ) : Budgets :=
  let b := (s u).getD ⟨0, dailyLimit, now + 86400⟩
  updBudgets s u ⟨b.used + tokens, b.limit, b.reset_at⟩

/-- Classification of a retryable provider failure: the four caught exception
types plus the catch-all `except Exception`. -/
inductive FailKind
  | rate_limited
  | unavailable
  | timeout_err
  | protocol_error
  | unexpected
deriving DecidableEq

/-- Outcome of one provider attempt, as seen by the loop body. -/
inductive AttemptOutcome (α : Type)
  | ok (r : α)
  | fail (k : FailKind)

/-- One entry of the audit trail (the `llm_attempt` log record). -/
structure AttemptRec where
  provider : String
  attempt : ℕ
deriving DecidableEq

/-- How a `complete` call terminates. -/
inductive CompleteOutcome (α : Type)
  | success (r : α)
  /-- The bare `raise` on the last attempt: the provider's own failure
  propagates to the caller. -/
  | raised (k : FailKind)
  /-- The `ServiceUnavailableError("All LLM providers failed. Last error:
  ...")` raised after the loop, carrying `last_error`. -/
  | allFailed (last : Option FailKind)
deriving DecidableEq

/-- The provider loop.  `total = len(self.providers)`, `attempt` is the
1-based index, `last` is the `last_error` variable, `trail` the audit records
accumulated so far. -/
def completeGo {α : Type} (outcome : String → AttemptOutcome α) (total : ℕ) :
    ℕ → Option FailKind → List String → List AttemptRec →
      List AttemptRec × CompleteOutcome α
  | _, last, [], trail => (trail, .allFailed last)
  | attempt, _, p :: rest, trail =>
    let trail' := trail ++ [⟨p, attempt⟩]
    match outcome p with
    | .ok r => (trail', .success r)
    | .fail k =>
      if attempt < total then completeGo outcome total (attempt + 1) (some k) rest trail'
      else (trail', .raised k)

/-- `LLMGateway.complete`: iterate the configured provider list in order; the
per-provider outcome oracle `outcome` stands for the `acompletion` call plus
response parsing.  Returns the audit trail and the terminal outcome. -/
def complete {α : Type} (outcome : String → AttemptOutcome α)
    (providers : List String) : List AttemptRec × CompleteOutcome α :=
  completeGo outcome providers.length 1 none providers []

/-! ## Streaming (`app/llm/gateway.py` lines 439-512 and
`app/api/chat.py` lines 268-295)

`stream_complete` selects `self.providers[0]` (or `"azure"` when the list is
empty), opens one streaming call and yields each non-empty
`chunk.choices[0].delta.content`; an exception is logged and re-raised.
`_stream_response` wraps each yielded chunk as an SSE `data:` frame, emits
`data: [DONE]` after normal termination, and on any exception emits a single
`data: {"error": "stream_failed", ...}` frame instead. -/

/-- Behaviour of one provider's streaming call: the content deltas it emits
before terminating, and — when it fails mid-stream — the error it raises
afterwards (`none` = the stream ends normally). -/
structure StreamBehavior where
  deltas : List (List Char)
  failure : Option (List Char)

/-- The fragments `stream_complete` yields: every delta whose content is
truthy (non-empty), in order. -/
def stream_fragments (b : StreamBehavior) : List (List Char) :=
  b.deltas.filter (fun c => !c.isEmpty)

/-- The provider `stream_complete` uses:
`self.providers[0] if self.providers else "azure"`. -/
def stream_provider (providers : List String) : String :=
  providers.headD "azure"

/-- One server-sent event emitted by `_stream_response`. -/
inductive SSEvent
  /-- a `data: {"chunk": ...}` frame relaying one content fragment -/
  | data (chunk : List Char)
  /-- the `data: [DONE]` end-of-stream marker -/
  | done
  /-- the `data: {"error": "stream_failed", "message": ...}` terminal error
  marker -/
  | errMark (msg : List Char)
deriving DecidableEq

/-- Wire rendering of an SSE frame, following the f-strings in
`_stream_response` (the JSON payload of a chunk frame is abbreviated to the
chunk itself; request/conversation ids are omitted). -/
def renderSSE : SSEvent → List Char
  | .data c => "data: \x7b\"chunk\": \"".toList ++ c ++ "\"\x7d\n\n".toList
  | .done => "data: [DONE]\n\n".toList
  | .errMark m =>
      "data: \x7b\"error\": \"stream_failed\", \"message\": \"".toList ++ m ++
        "\"\x7d\n\n".toList

/-- `_stream_response` composed with `stream_complete` for the chosen
provider's behaviour: relay each fragment as a data frame; append `[DONE]` on
normal termination, or the single error frame when the provider failed
mid-stream. -/
def stream_response (providers : List String)
    (streams : String → StreamBehavior) : List SSEvent :=
  let b := streams (stream_provider providers)
  (stream_fragments b).map SSEvent.data ++
    match b.failure with
    | none => [SSEvent.done]
    | some e => [SSEvent.errMark e]

/-! ## LLMGateway._estimate_cost (`app/llm/gateway.py` lines 403-437)

A static table maps model-name substrings to a $/1000-token rate; the base
(unqualified, lowercased) model name is tested against the keys in the
table's insertion order, first match wins, default rate 0.01.  Model names
are `List Char` so that the character-level operations (`lower()`, `in`,
`split("/")[-1]`) compute. -/

/-- Python's substring test `pat in hay` on character lists. -/
def contains_key : List Char → List Char → Bool
  | [], pat => pat.isEmpty
  | c :: rest, pat => pat.isPrefixOf (c :: rest) || contains_key rest pat

/-- The `cost_per_1k` table, in its Python (insertion-order) key order. -/
def cost_per_1k : List (List Char × ℚ) :=
  [("gpt-4".toList, 45/1000), ("gpt-4o".toList, 3/100),
   ("gpt-3.5-turbo".toList, 175/100000), ("claude-2".toList, 8/1000),
   ("gemini-pro".toList, 1/1000)]

/-- `base_model = model.split("/")[-1] if "/" in model else model`: the
segment after the last `/` (the last element of the split). -/
def base_model (model : List Char) : List Char :=
  if model.contains '/' then (model.reverse.takeWhile (fun c => c != '/')).reverse
  else model

/-- The `for key, cost in cost_per_1k.items()` loop: the first key contained
in the lowered base name determines the rate; the fall-through returns the
default `(tokens_used / 1000) * 0.01`.  `low` is `base_model.lower()`. -/
def estimate_go (tokens : ℚ) (low : List Char) : List (List Char × ℚ) → ℚ
  | [] => tokens / 1000 * (1/100)
  | (key, cost) :: rest =>
    if contains_key low key then tokens / 1000 * cost
    else estimate_go tokens low rest

/-- `LLMGateway._estimate_cost(model, tokens_used)`. -/
def estimate_cost (model : List Char) (tokens_used : ℚ) : ℚ :=
  estimate_go tokens_used ((base_model model).map Char.toLower) cost_per_1k

/-- Spec-side description of the rate selection: the first table key that is a
substring of the lowered base model name gives the rate; no match gives the
default rate 0.01. -/
def first_match_rate (model : List Char) : ℚ :=
  ((cost_per_1k.find? (fun kc =>
      contains_key ((base_model model).map Char.toLower) kc.1)).map
    Prod.snd).getD (1/100)

/-! ## chat_endpoint (`app/api/chat.py` lines 112-265)

Admission pipeline: `check_rate_limit(user_id)` (cost 1) → 429 on denial;
`check_budget(user_id, estimated_tokens)` → 429 on denial (the estimate
`len(message.split()) * 2` is abstracted as `est`); then either a
`StreamingResponse` over `_stream_response` (when `payload.stream` and
`LLM_ENABLED`), or `gateway.complete` followed by
`budget_manager.record_usage(user_id, tokens_used)` on success and a 503 on
any exception, or the mock response when `LLM_ENABLED` is false.  The third
result component counts provider calls issued (0 on denial and mock, 1 for
the streaming call, the audit-trail length for `complete`). -/

structure ChatState where
  buckets : RLBuckets
  budgets : Budgets

inductive ChatOutcome
  | rateDenied
  | budgetDenied
  | streamed (events : List SSEvent)
  | completed (tokens : ℤ)
  | mockCompleted
  | llmUnavailable

def chat_endpoint (rateLimit : ℚ) (dailyLimit : ℤ)
    (llm_enabled streamReq : Bool) (outcome : String → AttemptOutcome ℤ)
    (providers : List String) (streams : String → StreamBehavior)
    (st : ChatState) (u : String) (est : ℤ) (now : ℚ) :
    ChatOutcome × ChatState × ℕ :=
  let rc := check_rate_limit rateLimit st.buckets u 1 now
  if ¬ rc.1 then (.rateDenied, ⟨rc.2, st.budgets⟩, 0)
  else
    let bc := check_budget dailyLimit st.budgets u est now
    if ¬ bc.1 then (.budgetDenied, ⟨rc.2, bc.2⟩, 0)
    else if streamReq && llm_enabled then
      (.streamed (stream_response providers streams), ⟨rc.2, bc.2⟩, 1)
    else if llm_enabled then
      match complete outcome providers with
      | (trail, .success tokens) =>
        (.completed tokens,
          ⟨rc.2, record_usage dailyLimit bc.2 u tokens now⟩, trail.length)
      | (trail, .raised _) => (.llmUnavailable, ⟨rc.2, bc.2⟩, trail.length)
      | (trail, .allFailed _) => (.llmUnavailable, ⟨rc.2, bc.2⟩, trail.length)
    else (.mockCompleted, ⟨rc.2, bc.2⟩, 0)

/-! Basic facts about refill and check steps. -/

theorem check_rate_limit_as_bucket (limit : ℚ) (s : RLBuckets) (u : String)
    (cost now : ℚ) :
    check_rate_limit limit s u cost now =
      ((bucket_check limit (bucketAt limit s u now) cost now).1,
       updBuckets s u (bucket_check limit (bucketAt limit s u now) cost now).2) := rfl

theorem refill_tokens_le (limit : ℚ) (b : Bucket) (now : ℚ) :
    (refill_tokens limit b now).tokens ≤ limit :=
  min_le_left _ _

theorem refill_tokens_nonneg (limit : ℚ) (b : Bucket) (now : ℚ)
    (hL : 0 ≤ limit) (hb : 0 ≤ b.tokens) (ht : b.last_refill ≤ now) :
    0 ≤ (refill_tokens limit b now).tokens := by
  have h1 : 0 ≤ (now - b.last_refill) / 60 * limit := by
    have : (0:ℚ) ≤ now - b.last_refill := by linarith
    positivity
  have : (0:ℚ) ≤ b.tokens + (now - b.last_refill) / 60 * limit := by linarith
  exact le_min hL this

theorem refill_tokens_last (limit : ℚ) (b : Bucket) (now : ℚ) :
    (refill_tokens limit b now).last_refill = now := rfl

theorem bucket_check_tokens_eq (limit : ℚ) (b : Bucket) (cost now : ℚ) :
    (bucket_check limit b cost now).2.tokens =
      (if cost ≤ (refill_tokens limit b now).tokens then
        (refill_tokens limit b now).tokens - cost
      else (refill_tokens limit b now).tokens) := by
  unfold bucket_check
  by_cases h : cost ≤ (refill_tokens limit b now).tokens <;> simp [h]

theorem bucket_check_last (limit : ℚ) (b : Bucket) (cost now : ℚ) :
    (bucket_check limit b cost now).2.last_refill = now := by
  unfold bucket_check
  dsimp only
  split <;> rfl

/-- One check step preserves `0 ≤ tokens ≤ limit` (time monotone, cost
non-negative). -/
theorem bucket_check_invariant (limit : ℚ) (b : Bucket) (cost now : ℚ)
    (hL : 0 ≤ limit) (hb0 : 0 ≤ b.tokens)
    (ht : b.last_refill ≤ now) (hc : 0 ≤ cost) :
    0 ≤ (bucket_check limit b cost now).2.tokens ∧
      (bucket_check limit b cost now).2.tokens ≤ limit := by
  have hr0 : 0 ≤ (refill_tokens limit b now).tokens :=
    refill_tokens_nonneg limit b now hL hb0 ht
  have hrL : (refill_tokens limit b now).tokens ≤ limit := refill_tokens_le limit b now
  rw [bucket_check_tokens_eq]
  by_cases h : cost ≤ (refill_tokens limit b now).tokens
  · simp only [h, if_true]
    constructor <;> linarith
  · simp only [h, if_false]
    exact ⟨hr0, hrL⟩

theorem bucket_check_allowed_iff (limit : ℚ) (b : Bucket) (cost now : ℚ) :
    (bucket_check limit b cost now).1 = true ↔
      cost ≤ (refill_tokens limit b now).tokens := by
  unfold bucket_check
  dsimp only
  split <;> simp_all

/-- Refilling twice (at `now`, then at a later `now'`) produces the same bucket
as refilling once at `now'`: the lazy refill is observationally a no-op. -/
theorem refill_tokens_idem (limit : ℚ) (b : Bucket) (now now' : ℚ)
    (hL : 0 ≤ limit) (h2 : now ≤ now') :
    refill_tokens limit (refill_tokens limit b now) now' =
      refill_tokens limit b now' := by
  unfold refill_tokens
  have hc : 0 ≤ (now' - now) / 60 * limit := by
    have : (0:ℚ) ≤ now' - now := by linarith
    positivity
  have hsum : (now - b.last_refill) / 60 * limit + (now' - now) / 60 * limit =
      (now' - b.last_refill) / 60 * limit := by ring
  rcases le_total (b.tokens + (now - b.last_refill) / 60 * limit) limit with h | h
  · have : min limit (b.tokens + (now - b.last_refill) / 60 * limit) =
        b.tokens + (now - b.last_refill) / 60 * limit := min_eq_right h
    simp only [this]
    congr 1
    rw [add_assoc, hsum]
  · have hmin : min limit (b.tokens + (now - b.last_refill) / 60 * limit) = limit :=
      min_eq_left h
    simp only [hmin]
    congr 1
    have hl : min limit (limit + (now' - now) / 60 * limit) = limit :=
      min_eq_left (by linarith)
    have hr : min limit (b.tokens + (now' - b.last_refill) / 60 * limit) = limit :=
      min_eq_left (by rw [← hsum, ← add_assoc]; linarith)
    rw [hl, hr]

/-- Invariant for a trace of checks on one principal's bucket: tokens stay in
`[0, limit]` and `last_refill` never moves backwards.  The operation list is
universally quantified, so the invariant holds after every prefix of any run. -/
theorem run_checks_invariant (limit : ℚ) :
    ∀ (ops : List (ℚ × ℚ)) (b : Bucket), 0 ≤ limit → 0 ≤ b.tokens →
      b.tokens ≤ limit →
      List.Chain' (· ≤ ·) (b.last_refill :: ops.map Prod.fst) →
      (∀ p ∈ ops, 0 ≤ p.2) →
      0 ≤ (run_checks limit b ops).1.tokens ∧
        (run_checks limit b ops).1.tokens ≤ limit ∧
        b.last_refill ≤ (run_checks limit b ops).1.last_refill := by
  intro ops
  induction ops with
  | nil =>
    intro b _ hb0 hbL _ _
    exact ⟨hb0, hbL, le_refl _⟩
  | cons p rest ih =>
    intro b hL hb0 hbL hchain hcost
    obtain ⟨t, c⟩ := p
    simp only [List.map_cons, List.chain'_cons] at hchain
    obtain ⟨hbt, hchain'⟩ := hchain
    have hc : 0 ≤ c := hcost (t, c) (List.mem_cons_self _ _)
    have hstep := bucket_check_invariant limit b c t hL hb0 hbt hc
    have hlast : (bucket_check limit b c t).2.last_refill = t :=
      bucket_check_last limit b c t
    have hrest := ih (bucket_check limit b c t).2 hL hstep.1 hstep.2
      (by rw [hlast]; exact hchain')
      (fun q hq => hcost q (List.mem_cons_of_mem _ hq))
    refine ⟨?_, ?_, ?_⟩
    · simpa [run_checks] using hrest.1
    · simpa [run_checks] using hrest.2.1
    · have : b.last_refill ≤ (run_checks limit (bucket_check limit b c t).2 rest).1.last_refill := by
        calc b.last_refill ≤ t := hbt
          _ = (bucket_check limit b c t).2.last_refill := hlast.symm
          _ ≤ _ := hrest.2.2
      simpa [run_checks] using this

/-- Accounting bound for traces of cost-1 checks: the number of allowed calls
is at most the initial tokens minus the final tokens plus the total refilled
amount; moreover the final tokens are non-negative and `last_refill` ends no
later than any bound on the call times. -/
theorem run_checks_count_bound (limit : ℚ) :
    ∀ (ts : List ℚ) (b : Bucket) (M : ℚ), 0 ≤ limit → 0 ≤ b.tokens →
      List.Chain' (· ≤ ·) (b.last_refill :: ts) →
      b.last_refill ≤ M → (∀ t ∈ ts, t ≤ M) →
      (((run_checks limit b (ts.map (fun t => (t, 1)))).2 : ℚ) ≤
          b.tokens - (run_checks limit b (ts.map (fun t => (t, 1)))).1.tokens +
            ((run_checks limit b (ts.map (fun t => (t, 1)))).1.last_refill -
              b.last_refill) / 60 * limit) ∧
        0 ≤ (run_checks limit b (ts.map (fun t => (t, 1)))).1.tokens ∧
        b.last_refill ≤ (run_checks limit b (ts.map (fun t => (t, 1)))).1.last_refill ∧
        (run_checks limit b (ts.map (fun t => (t, 1)))).1.last_refill ≤ M := by
  intro ts
  induction ts with
  | nil =>
    intro b M hL hb0 _ hbM _
    refine ⟨?_, hb0, le_refl _, hbM⟩
    simp [run_checks]
  | cons t rest ih =>
    intro b M hL hb0 hchain hbM htM
    simp only [List.chain'_cons] at hchain
    obtain ⟨hbt, hchain'⟩ := hchain
    have hstep := bucket_check_invariant limit b 1 t hL hb0 hbt (by norm_num)
    have hlast : (bucket_check limit b 1 t).2.last_refill = t :=
      bucket_check_last limit b 1 t
    have htM' : t ≤ M := htM t (List.mem_cons_self _ _)
    have hrest := ih (bucket_check limit b 1 t).2 M hL hstep.1
      (by rw [hlast]; exact hchain')
      (by rw [hlast]; exact htM')
      (fun s hs => htM s (List.mem_cons_of_mem _ hs))
    -- abbreviations
    set s := bucket_check limit b 1 t with hs
    set r := run_checks limit s.2 (rest.map (fun t => (t, 1))) with hr
    have hrunEq : run_checks limit b ((t :: rest).map (fun t => (t, 1))) =
        (r.1, (if s.1 then 1 else 0) + r.2) := by
      simp [run_checks, ← hs, ← hr]
    -- per-step accounting: allowed flag + post tokens ≤ pre tokens + refilled amount
    have hstepAcc : ((if s.1 then (1:ℚ) else 0)) + s.2.tokens ≤
        b.tokens + (t - b.last_refill) / 60 * limit := by
      have hmin : (refill_tokens limit b t).tokens ≤
          b.tokens + (t - b.last_refill) / 60 * limit := min_le_right _ _
      have htok := bucket_check_tokens_eq limit b 1 t
      by_cases hok : (1:ℚ) ≤ (refill_tokens limit b t).tokens
      · have hflag : s.1 = true := (bucket_check_allowed_iff limit b 1 t).mpr hok
        rw [hflag, if_pos rfl, hs, htok, if_pos hok]
        linarith
      · have hflag : s.1 = false := by
          cases h : s.1
          · rfl
          · exact absurd ((bucket_check_allowed_iff limit b 1 t).mp h) hok
        rw [hflag, if_neg (by simp), hs, htok, if_neg hok]
        linarith
    have hA : (t - b.last_refill) / 60 * limit +
        (r.1.last_refill - t) / 60 * limit =
        (r.1.last_refill - b.last_refill) / 60 * limit := by ring
    refine ⟨?_, ?_, ?_, ?_⟩
    · rw [hrunEq]
      push_cast
      have hIH := hrest.1
      rw [hlast] at hIH
      by_cases hok : s.1 = true
      · simp only [hok, if_true] at *
        linarith
      · simp only [hok, if_false] at *
        linarith
    · rw [hrunEq]; exact hrest.2.1
    · rw [hrunEq]
      calc b.last_refill ≤ t := hbt
        _ = s.2.last_refill := hlast.symm
        _ ≤ r.1.last_refill := hrest.2.2.1
    · rw [hrunEq]; exact hrest.2.2.2

/-- C4: for every principal and every sequence of rate-limiter operations, the
bucket's token count satisfies `0 ≤ tokens ≤ capacity` at all times (the
operation list being universally quantified covers every prefix of any run);
refill sets `tokens` to `min(capacity, tokens + elapsed/window * capacity)` and
never pushes tokens above capacity regardless of idle duration before the next
check; a check subtracts `cost` exactly when the refilled tokens are at least
`cost`. -/
theorem rate_bucket_invariant (limit : ℚ) (hL : 0 ≤ limit) :
    (∀ (b : Bucket) (now : ℚ), refill_tokens limit b now =
        ⟨min limit (b.tokens + (now - b.last_refill) / 60 * limit), now⟩) ∧
    (∀ (b : Bucket) (now : ℚ), (refill_tokens limit b now).tokens ≤ limit) ∧
    (∀ (b : Bucket) (cost now : ℚ), (bucket_check limit b cost now).2.tokens =
        if cost ≤ (refill_tokens limit b now).tokens
        then (refill_tokens limit b now).tokens - cost
        else (refill_tokens limit b now).tokens) ∧
    (∀ (ops : List (ℚ × ℚ)) (b : Bucket), 0 ≤ b.tokens → b.tokens ≤ limit →
      List.Chain' (· ≤ ·) (b.last_refill :: ops.map Prod.fst) →
      (∀ p ∈ ops, 0 ≤ p.2) →
      0 ≤ (run_checks limit b ops).1.tokens ∧
        (run_checks limit b ops).1.tokens ≤ limit) := by
  refine ⟨fun b now => rfl, fun b now => refill_tokens_le limit b now,
    fun b cost now => bucket_check_tokens_eq limit b cost now,
    fun ops b hb0 hbL hchain hcost => ?_⟩
  have h := run_checks_invariant limit ops b hL hb0 hbL hchain hcost
  exact ⟨h.1, h.2.1⟩

/-- Witness for `rate_bucket_invariant`: capacity 60, a fresh full bucket and
two cost-1 checks at times 0 and 30. -/
theorem rate_bucket_invariant_witness :
    0 ≤ (60:ℚ) ∧
      (0 ≤ (run_checks 60 ⟨60, 0⟩ [(0, 1), (30, 1)]).1.tokens ∧
        (run_checks 60 ⟨60, 0⟩ [(0, 1), (30, 1)]).1.tokens ≤ 60) := by
  refine ⟨by norm_num, ?_⟩
  exact (rate_bucket_invariant 60 (by norm_num)).2.2.2 [(0, 1), (30, 1)] ⟨60, 0⟩
    (by norm_num) (by norm_num)
    (by simp [List.chain'_cons])
    (by rintro p hp; fin_cases hp <;> norm_num)

/-- C3 counterexample: with capacity 2, a fresh full bucket and cost-1 checks
at times 0s, 0s and 30s — all within a 30-second span, well inside one
60-second refill window — three calls are allowed, exceeding the bucket
capacity of 2. -/
theorem allowed_calls_exceed_capacity_in_window :
    (run_checks 2 ⟨2, 0⟩ [(0, 1), (0, 1), (30, 1)]).2 = 3 ∧
      2 < 3 ∧ (30:ℚ) - 0 < 60 := by
  refine ⟨?_, by norm_num, by norm_num⟩
  norm_num [run_checks, bucket_check, refill_tokens, min_def]

/-- C3 amended: over any sequence of cost-1 checks whose call times all lie
within `T` seconds of the bucket's starting point, the number of allowed calls
is at most `capacity + T/60 * capacity` — the capacity plus the amount
proportional refill can restore during the span.  With `T = 0` (all calls at
one instant, so no refill occurs) the bound is exactly the bucket capacity. -/
theorem allowed_calls_bounded (limit T : ℚ) (b : Bucket) (ts : List ℚ)
    (hL : 0 ≤ limit) (hT : 0 ≤ T) (hb0 : 0 ≤ b.tokens) (hbL : b.tokens ≤ limit)
    (hchain : List.Chain' (· ≤ ·) (b.last_refill :: ts))
    (hspan : ∀ t ∈ ts, t ≤ b.last_refill + T) :
    ((run_checks limit b (ts.map (fun t => (t, 1)))).2 : ℚ) ≤
      limit + T / 60 * limit := by
  obtain ⟨h1, h2, h3, h4⟩ := run_checks_count_bound limit ts b (b.last_refill + T)
    hL hb0 hchain (by linarith) hspan
  have hfl : ((run_checks limit b (ts.map (fun t => (t, 1)))).1.last_refill -
      b.last_refill) ≤ T := by linarith
  have hmul : ((run_checks limit b (ts.map (fun t => (t, 1)))).1.last_refill -
      b.last_refill) / 60 * limit ≤ T / 60 * limit := by
    have hdiv : ((run_checks limit b (ts.map (fun t => (t, 1)))).1.last_refill -
        b.last_refill) / 60 ≤ T / 60 :=
      (div_le_div_iff_of_pos_right (by norm_num : (0:ℚ) < 60)).mpr hfl
    exact mul_le_mul_of_nonneg_right hdiv hL
  linarith

/-- Witness for `allowed_calls_bounded`: capacity 2, full bucket, calls at
times 0, 0 and 30, span `T = 30`; the bound `2 + 30/60 * 2 = 3` is attained. -/
theorem allowed_calls_bounded_witness :
    0 ≤ (2:ℚ) ∧ 0 ≤ (30:ℚ) ∧
      ((run_checks 2 ⟨2, 0⟩ (([0, 0, 30] : List ℚ).map (fun t => (t, 1)))).2 : ℚ) ≤
        2 + 30 / 60 * 2 := by
  refine ⟨by norm_num, by norm_num, ?_⟩
  exact allowed_calls_bounded 2 30 ⟨2, 0⟩ [0, 0, 30]
    (by norm_num) (by norm_num) (by norm_num) (by norm_num)
    (by simp [List.chain'_cons])
    (by rintro t ht; fin_cases ht <;> norm_num)

theorem check_budget_none (d : ℤ) (s : Budgets) (u : String) (est : ℤ)
    (now : ℚ) (h : s u = none) :
    check_budget d s u est now =
      (decide (est ≤ d), updBudgets s u ⟨0, d, now + 86400⟩) := by
  unfold check_budget
  rw [h]
  simp only [Option.getD_none]
  rw [if_neg (by intro hh; linarith)]
  simp

theorem check_budget_reset (d : ℤ) (s : Budgets) (u : String) (est : ℤ)
    (now : ℚ) (b : BudgetRec) (hb : s u = some b) (hreset : b.reset_at < now) :
    check_budget d s u est now =
      (decide (est ≤ b.limit), updBudgets s u ⟨0, b.limit, now + 86400⟩) := by
  unfold check_budget
  rw [hb]
  simp only [Option.getD_some]
  rw [if_pos hreset]
  simp

theorem check_budget_current (d : ℤ) (s : Budgets) (u : String) (est : ℤ)
    (now : ℚ) (b : BudgetRec) (hb : s u = some b) (hreset : ¬ b.reset_at < now) :
    check_budget d s u est now =
      (decide (est ≤ b.limit - b.used), updBudgets s u b) := by
  unfold check_budget
  rw [hb]
  simp only [Option.getD_some]
  rw [if_neg hreset]

theorem updBudgets_same (s : Budgets) (u : String) (b : BudgetRec) :
    updBudgets s u b u = some b := by
  simp [updBudgets]

/-- C5: `check_budget` initialises `{used = 0, limit = dailyLimit,
reset_at = now + 24h}` on first sight of a principal; if `now > reset_at` it
sets `used = 0` and advances `reset_at = now + 24h` before evaluating; and it
returns allowed iff `limit - used ≥ estimated_tokens` over the
initialised/reset record. -/
theorem check_budget_spec (d : ℤ) (s : Budgets) (u : String) (est : ℤ)
    (now : ℚ) :
    (s u = none →
      check_budget d s u est now =
        (decide (est ≤ d), updBudgets s u ⟨0, d, now + 86400⟩)) ∧
    (∀ b : BudgetRec, s u = some b → b.reset_at < now →
      check_budget d s u est now =
        (decide (est ≤ b.limit), updBudgets s u ⟨0, b.limit, now + 86400⟩)) ∧
    (∀ b : BudgetRec, s u = some b → ¬ b.reset_at < now →
      check_budget d s u est now =
        (decide (est ≤ b.limit - b.used), updBudgets s u b)) ∧
    (∀ b' : BudgetRec, (check_budget d s u est now).2 u = some b' →
      ((check_budget d s u est now).1 = true ↔ est ≤ b'.limit - b'.used)) := by
  refine ⟨check_budget_none d s u est now,
    fun b => check_budget_reset d s u est now b,
    fun b => check_budget_current d s u est now b, ?_⟩
  intro b' hb'
  unfold check_budget at hb' ⊢
  simp only [updBudgets, if_pos rfl] at hb'
  dsimp only
  rw [← Option.some_inj.mp hb']
  exact decide_eq_true_iff

/-- Witness for `check_budget_spec`: a fresh principal with daily limit 100000
and estimate 100 is initialised and allowed. -/
theorem check_budget_spec_witness :
    ((fun _ => none : Budgets) "alice" = none) ∧
      check_budget 100000 (fun _ => none) "alice" 100 1000 =
        (decide ((100:ℤ) ≤ 100000),
          updBudgets (fun _ => none) "alice" ⟨0, 100000, 1000 + 86400⟩) :=
  ⟨rfl, (check_budget_spec 100000 (fun _ => none) "alice" 100 1000).1 rfl⟩

/-- C6: the `used` counter is monotonically non-decreasing between resets
(`record_usage` with non-negative tokens only increases it and leaves
`reset_at` alone; `check_budget` never changes it except by a reset to 0); the
reset fires lazily on the first `check_budget` after the 24h boundary, sets
`used` to 0 and advances `reset_at` by 24h from the access time; a check at or
before the boundary leaves the record untouched; and a second check within 24h
of a reset does not reset again. -/
theorem budget_reset_and_monotonicity (d : ℤ) (s : Budgets) (u : String) :
    (∀ (b : BudgetRec) (t : ℤ) (now : ℚ), s u = some b → 0 ≤ t →
      (record_usage d s u t now) u = some ⟨b.used + t, b.limit, b.reset_at⟩ ∧
        b.used ≤ b.used + t) ∧
    (∀ (t : ℤ) (now : ℚ), s u = none →
      (record_usage d s u t now) u = some ⟨t, d, now + 86400⟩) ∧
    (∀ (b : BudgetRec) (est : ℤ) (now : ℚ), s u = some b → now ≤ b.reset_at →
      ∀ v, (check_budget d s u est now).2 v = s v) ∧
    (∀ (b : BudgetRec) (est : ℤ) (now : ℚ), s u = some b → b.reset_at < now →
      (check_budget d s u est now).2 u = some ⟨0, b.limit, now + 86400⟩) ∧
    (∀ (b : BudgetRec) (est est' : ℤ) (now now' : ℚ), s u = some b →
      b.reset_at < now → now' ≤ now + 86400 →
      (check_budget d (check_budget d s u est now).2 u est' now').2 u =
        some ⟨0, b.limit, now + 86400⟩) ∧
    (∀ (b b' : BudgetRec) (est : ℤ) (now : ℚ), s u = some b →
      (check_budget d s u est now).2 u = some b' →
      b'.used = b.used ∨ b'.used = 0) := by
  refine ⟨?_, ?_, ?_, ?_, ?_, ?_⟩
  · intro b t now hb ht
    unfold record_usage
    rw [hb]
    exact ⟨by simp [updBudgets], by linarith⟩
  · intro t now h
    unfold record_usage
    rw [h]
    simp [updBudgets]
  · intro b est now hb hle v
    rw [check_budget_current d s u est now b hb (by intro hh; linarith)]
    dsimp only [updBudgets]
    by_cases hv : v = u
    · subst hv; simp [hb]
    · simp [hv]
  · intro b est now hb hlt
    rw [check_budget_reset d s u est now b hb hlt]
    exact updBudgets_same _ _ _
  · intro b est est' now now' hb hlt hle
    rw [check_budget_reset d s u est now b hb hlt]
    rw [check_budget_current d _ u est' now' ⟨0, b.limit, now + 86400⟩
      (updBudgets_same _ _ _) (by intro hh; dsimp only at hh; linarith)]
    exact updBudgets_same _ _ _
  · intro b b' est now hb hb'
    by_cases hlt : b.reset_at < now
    · rw [check_budget_reset d s u est now b hb hlt] at hb'
      dsimp only at hb'
      rw [updBudgets_same] at hb'
      right
      rw [← Option.some_inj.mp hb']
    · rw [check_budget_current d s u est now b hb hlt] at hb'
      dsimp only at hb'
      rw [updBudgets_same] at hb'
      left
      rw [← Option.some_inj.mp hb']

/-- Witness for `budget_reset_and_monotonicity`: a record with `used = 7` and
`reset_at = 50` is reset once by a check at time 100 and not reset again by a
second check at time 86500 (which is exactly 24h after the first). -/
theorem budget_reset_and_monotonicity_witness :
    (updBudgets (fun _ => none) "alice" ⟨7, 100, 50⟩ "alice" =
        some (⟨7, 100, 50⟩ : BudgetRec)) ∧
      (50:ℚ) < 100 ∧ (86500:ℚ) ≤ 100 + 86400 ∧
      (check_budget 100
          (check_budget 100 (updBudgets (fun _ => none) "alice" ⟨7, 100, 50⟩)
            "alice" 1 100).2 "alice" 1 86500).2 "alice" =
        some ⟨0, 100, 100 + 86400⟩ :=
  ⟨by simp [updBudgets], by norm_num, by norm_num,
    (budget_reset_and_monotonicity 100
        (updBudgets (fun _ => none) "alice" ⟨7, 100, 50⟩) "alice").2.2.2.2.1
      ⟨7, 100, 50⟩ 1 1 100 86500 (by simp [updBudgets]) (by norm_num) (by norm_num)⟩

/-- The audit-trail extension produced by the loop visits providers in list
order: its provider names form a sublist (in fact a leading segment) of the
remaining provider list. -/
theorem completeGo_trail {α : Type} (outcome : String → AttemptOutcome α)
    (total : ℕ) :
    ∀ (ps : List String) (attempt : ℕ) (last : Option FailKind)
      (trail : List AttemptRec),
      ∃ ext, (completeGo outcome total attempt last ps trail).1 = trail ++ ext ∧
        List.Sublist (ext.map (fun a => a.provider)) ps := by
  intro ps
  induction ps with
  | nil =>
    intro attempt last trail
    exact ⟨[], by simp [completeGo], List.Sublist.refl _⟩
  | cons p rest ih =>
    intro attempt last trail
    unfold completeGo
    dsimp only
    cases houtcome : outcome p with
    | ok r =>
      exact ⟨[⟨p, attempt⟩], by simp, by simp⟩
    | fail k =>
      dsimp only
      by_cases hlt : attempt < total
      · rw [if_pos hlt]
        obtain ⟨ext, hext, hsub⟩ := ih (attempt + 1) (some k) (trail ++ [⟨p, attempt⟩])
        refine ⟨⟨p, attempt⟩ :: ext, ?_, ?_⟩
        · rw [hext]; simp
        · simpa using List.Sublist.cons₂ p hsub
      · rw [if_neg hlt]
        exact ⟨[⟨p, attempt⟩], by simp, by simp⟩

/-- C8: with three configured providers where the first two fail retryably and
the third succeeds, `complete` returns the third provider's result and records
exactly three attempts; in general the audit trail's providers form a sublist
of the configured provider list, so the number of attempts never exceeds the
number of configured providers and no provider is attempted more often than it
is configured. -/
theorem complete_failover_attempts :
    (complete (fun p => if p = "vertex" then .ok (42:ℤ) else .fail .unavailable)
        ["azure", "bedrock", "vertex"] =
      ([⟨"azure", 1⟩, ⟨"bedrock", 2⟩, ⟨"vertex", 3⟩], .success 42)) ∧
    (∀ (α : Type) (outcome : String → AttemptOutcome α) (providers : List String),
      List.Sublist ((complete outcome providers).1.map (fun a => a.provider))
          providers ∧
        (complete outcome providers).1.length ≤ providers.length ∧
        ∀ p : String, ((complete outcome providers).1.map
            (fun a => a.provider)).count p ≤ providers.count p) := by
  refine ⟨by decide, fun α outcome providers => ?_⟩
  obtain ⟨ext, hext, hsub⟩ := completeGo_trail outcome providers.length providers 1 none []
  have htrail : (complete outcome providers).1 = ext := by
    unfold complete
    rw [hext]
    simp
  rw [htrail]
  refine ⟨hsub, ?_, fun p => hsub.count_le p⟩
  have := hsub.length_le
  simpa using this

/-- C1 (divergence witness): with a non-empty provider list in which every
attempt fails retryably, `complete` re-raises the last provider's own failure
(`raise` in the final `except` branch), which is distinct from the
all-providers-failed error; the `ServiceUnavailableError("All LLM providers
failed...")` after the loop is reached only when the provider list is empty,
where `last_error` is still `None`. -/
theorem gateway_complete_raises_last_provider_failure :
    (complete (fun _ => AttemptOutcome.fail FailKind.rate_limited :
          String → AttemptOutcome ℤ) ["azure"] =
        ([⟨"azure", 1⟩], CompleteOutcome.raised FailKind.rate_limited)) ∧
    (complete (fun p => AttemptOutcome.fail
          (if p = "azure" then FailKind.rate_limited else FailKind.timeout_err) :
          String → AttemptOutcome ℤ) ["azure", "bedrock"] =
        ([⟨"azure", 1⟩, ⟨"bedrock", 2⟩],
          CompleteOutcome.raised FailKind.timeout_err)) ∧
    (∀ (last : Option FailKind),
      CompleteOutcome.raised (α := ℤ) FailKind.rate_limited ≠
        CompleteOutcome.allFailed last) ∧
    (∀ (α : Type) (outcome : String → AttemptOutcome α),
      complete outcome [] = ([], CompleteOutcome.allFailed none)) :=
  ⟨by decide, by decide, fun last => by simp, fun α outcome => rfl⟩

/-- C9: streaming uses only the first available provider — the relayed
sequence is a function of that provider's stream alone, so there is no
failover and no retry; a normally-terminating stream yields its fragments in
order followed by the `[DONE]` end-of-stream marker; a stream failing after
`k` delivered fragments yields exactly those `k` fragments followed by one
terminal error marker, which differs from the end-of-stream marker both as an
event and on the wire. -/
theorem stream_single_provider_fragments_and_markers :
    (∀ (p : String) (rest rest' : List String) (streams : String → StreamBehavior),
      stream_response (p :: rest) streams = stream_response (p :: rest') streams) ∧
    (∀ (providers : List String) (streams : String → StreamBehavior),
      stream_response providers streams =
        (stream_fragments (streams (stream_provider providers))).map SSEvent.data ++
          match (streams (stream_provider providers)).failure with
          | none => [SSEvent.done]
          | some e => [SSEvent.errMark e]) ∧
    (∀ (ds : List (List Char)) (e : List Char) (providers : List String)
        (streams : String → StreamBehavior),
      streams (stream_provider providers) = ⟨ds, some e⟩ →
      stream_response providers streams =
        (stream_fragments ⟨ds, some e⟩).map SSEvent.data ++ [SSEvent.errMark e]) ∧
    (∀ (e : List Char), SSEvent.errMark e ≠ SSEvent.done) ∧
    (renderSSE (SSEvent.errMark "boom".toList) ≠ renderSSE SSEvent.done) ∧
    (stream_response ["azure", "bedrock"]
        (fun _ => ⟨["He".toList, "llo".toList], some "boom".toList⟩) =
      [SSEvent.data "He".toList, SSEvent.data "llo".toList,
        SSEvent.errMark "boom".toList]) := by
  refine ⟨fun p rest rest' streams => rfl,
    fun providers streams => rfl, ?_, fun e => by simp, by decide, by decide⟩
  intro ds e providers streams hb
  unfold stream_response
  rw [hb]

/-- Witness for `stream_single_provider_fragments_and_markers`: the
mid-stream-failure conjunct instantiated at a two-fragment stream failing with
message `boom`. -/
theorem stream_single_provider_witness :
    ((fun _ => (⟨["He".toList, "llo".toList], some "boom".toList⟩ :
        StreamBehavior) : String → StreamBehavior)
          (stream_provider ["azure"]) =
        ⟨["He".toList, "llo".toList], some "boom".toList⟩) ∧
      stream_response ["azure"]
          (fun _ => ⟨["He".toList, "llo".toList], some "boom".toList⟩) =
        (stream_fragments ⟨["He".toList, "llo".toList], some "boom".toList⟩).map
            SSEvent.data ++ [SSEvent.errMark "boom".toList] :=
  ⟨rfl, stream_single_provider_fragments_and_markers.2.2.1
    ["He".toList, "llo".toList] "boom".toList ["azure"]
    (fun _ => ⟨["He".toList, "llo".toList], some "boom".toList⟩) rfl⟩

theorem estimate_go_eq_find (tokens : ℚ) (low : List Char) :
    ∀ l : List (List Char × ℚ),
      estimate_go tokens low l =
        tokens / 1000 *
          (((l.find? (fun kc => contains_key low kc.1)).map Prod.snd).getD
            (1/100)) := by
  intro l
  induction l with
  | nil => simp [estimate_go]
  | cons kc rest ih =>
    obtain ⟨key, cost⟩ := kc
    by_cases h : contains_key low key
    · simp [estimate_go, List.find?, h]
    · simp [estimate_go, if_neg h, ih, List.find?, h]

/-- C7: the cost estimate equals `tokens/1000` times the rate of the first
table key contained (case-insensitively) in the base model name, with the
default rate `0.01` when no key matches; instance checks: 1000 tokens of
`claude-2` (also provider-qualified, also upper-case `GPT-3.5-Turbo`) cost the
key's configured rate, and an unrecognized model — matched by no key — falls
back to the default rate. -/
theorem estimate_cost_first_match :
    (∀ (model : List Char) (tokens : ℚ),
      estimate_cost model tokens = tokens / 1000 * first_match_rate model) ∧
    estimate_cost "claude-2".toList 1000 = 8/1000 ∧
    estimate_cost "bedrock/anthropic.claude-2".toList 1000 = 8/1000 ∧
    estimate_cost "AZURE/GPT-3.5-Turbo".toList 1000 = 175/100000 ∧
    (cost_per_1k.all (fun kc =>
      !contains_key (("mystery-model".toList).map Char.toLower) kc.1)) = true ∧
    estimate_cost "mystery-model".toList 1000 = 1/100 := by
  refine ⟨fun model tokens => estimate_go_eq_find tokens _ cost_per_1k,
    ?_, ?_, ?_, by decide, ?_⟩ <;>
    simp +decide [estimate_cost, estimate_go, cost_per_1k, base_model]

theorem bucket_check_denied (limit : ℚ) (b : Bucket) (cost now : ℚ)
    (h : (bucket_check limit b cost now).1 = false) :
    (bucket_check limit b cost now).2 = refill_tokens limit b now := by
  unfold bucket_check at h ⊢
  dsimp only at h ⊢
  split at h
  · exact absurd h (by simp)
  · split
    · simp_all
    · rfl

theorem check_rate_limit_denied (limit : ℚ) (s : RLBuckets) (u : String)
    (cost now : ℚ) (h : (check_rate_limit limit s u cost now).1 = false) :
    (check_rate_limit limit s u cost now).2 =
      updBuckets s u (refill_tokens limit (bucketAt limit s u now) now) := by
  rw [check_rate_limit_as_bucket] at h ⊢
  dsimp only at h ⊢
  rw [bucket_check_denied limit _ cost now h]

/-- C2 counterexample: a denied rate-limit check does change the principal's
bucket state.  Capacity 60, bucket `{tokens = 0, last_refill = 0}`, a cost-1
check at time 0.5s: the check is denied (only 0.5 tokens refilled), yet the
stored bucket changes from `⟨0, 0⟩` to `⟨0.5, 0.5⟩`. -/
theorem denied_rate_check_mutates_bucket_state :
    ((check_rate_limit 60 (updBuckets (fun _ => none) "alice" ⟨0, 0⟩)
        "alice" 1 (1/2)).1 = false) ∧
      (check_rate_limit 60 (updBuckets (fun _ => none) "alice" ⟨0, 0⟩)
          "alice" 1 (1/2)).2 "alice" ≠
        updBuckets (fun _ => none) "alice" ⟨0, 0⟩ "alice" := by
  have hbkt : bucketAt 60 (updBuckets (fun _ => none) "alice" ⟨0, 0⟩)
      "alice" (1/2) = ⟨0, 0⟩ := by simp [bucketAt, updBuckets]
  have hrf : refill_tokens 60 ⟨0, 0⟩ (1/2) = ⟨1/2, 1/2⟩ := by
    unfold refill_tokens
    norm_num [min_def]
  have hden : (check_rate_limit 60 (updBuckets (fun _ => none) "alice" ⟨0, 0⟩)
      "alice" 1 (1/2)).1 = false := by
    rw [check_rate_limit_as_bucket]
    dsimp only
    rw [show (bucket_check 60 (bucketAt 60 (updBuckets (fun _ => none) "alice"
      ⟨0, 0⟩) "alice" (1/2)) 1 (1/2)).1 = false by
        rw [hbkt]
        unfold bucket_check
        rw [hrf]
        norm_num]
  refine ⟨hden, ?_⟩
  rw [check_rate_limit_denied 60 _ "alice" 1 (1/2) hden, hbkt, hrf]
  simp only [updBuckets, if_pos rfl]
  intro h
  have := congrArg Bucket.tokens (Option.some_inj.mp h)
  norm_num at this

/-- C2 amended: a denied admission check is surfaced before any provider call
and consumes nothing.  A rate denial produces the 429 outcome with zero
provider calls, leaves the budget map untouched and stores only the pure
refill (no cost subtracted), so the denied check is observationally a no-op:
any later `check_rate_limit` for the principal returns exactly what it would
have returned had the denied check never run.  A budget denial produces the
429 outcome with zero provider calls; a budget check on a known principal
within its current window leaves the record untouched, and a budget check
never increases `used`. -/
theorem admission_denial_no_side_effects :
    (∀ (rateLimit : ℚ) (dailyLimit : ℤ) (llm_enabled streamReq : Bool)
        (outcome : String → AttemptOutcome ℤ) (providers : List String)
        (streams : String → StreamBehavior) (st : ChatState) (u : String)
        (est : ℤ) (now : ℚ),
      (check_rate_limit rateLimit st.buckets u 1 now).1 = false →
      chat_endpoint rateLimit dailyLimit llm_enabled streamReq outcome providers
          streams st u est now =
        (.rateDenied, ⟨(check_rate_limit rateLimit st.buckets u 1 now).2,
          st.budgets⟩, 0)) ∧
    (∀ (limit : ℚ) (s : RLBuckets) (u : String) (cost now : ℚ),
      (check_rate_limit limit s u cost now).1 = false →
      (check_rate_limit limit s u cost now).2 =
        updBuckets s u (refill_tokens limit (bucketAt limit s u now) now)) ∧
    (∀ (limit : ℚ) (s : RLBuckets) (u : String) (cost now cost' now' : ℚ),
      0 ≤ limit → now ≤ now' →
      (check_rate_limit limit s u cost now).1 = false →
      check_rate_limit limit (check_rate_limit limit s u cost now).2 u cost' now' =
        check_rate_limit limit s u cost' now') ∧
    (∀ (rateLimit : ℚ) (dailyLimit : ℤ) (llm_enabled streamReq : Bool)
        (outcome : String → AttemptOutcome ℤ) (providers : List String)
        (streams : String → StreamBehavior) (st : ChatState) (u : String)
        (est : ℤ) (now : ℚ),
      (check_rate_limit rateLimit st.buckets u 1 now).1 = true →
      (check_budget dailyLimit st.budgets u est now).1 = false →
      chat_endpoint rateLimit dailyLimit llm_enabled streamReq outcome providers
          streams st u est now =
        (.budgetDenied, ⟨(check_rate_limit rateLimit st.buckets u 1 now).2,
          (check_budget dailyLimit st.budgets u est now).2⟩, 0)) ∧
    (∀ (d : ℤ) (s : Budgets) (u : String) (est : ℤ) (now : ℚ) (b : BudgetRec),
      s u = some b → now ≤ b.reset_at →
      ∀ v, (check_budget d s u est now).2 v = s v) ∧
    (∀ (d : ℤ) (s : Budgets) (u : String) (est : ℤ) (now : ℚ) (b' : BudgetRec),
      (check_budget d s u est now).2 u = some b' →
      b'.used = 0 ∨ ∃ b, s u = some b ∧ b'.used = b.used) := by
  refine ⟨?_, check_rate_limit_denied, ?_, ?_, ?_, ?_⟩
  · intro rateLimit dailyLimit llm_enabled streamReq outcome providers streams
      st u est now h
    unfold chat_endpoint
    rw [if_pos (by rw [h]; simp)]
  · intro limit s u cost now cost' now' hL hnow hden
    rw [check_rate_limit_denied limit s u cost now hden]
    rw [check_rate_limit_as_bucket, check_rate_limit_as_bucket]
    have hbkt : bucketAt limit (updBuckets s u
        (refill_tokens limit (bucketAt limit s u now) now)) u now' =
        refill_tokens limit (bucketAt limit s u now) now := by
      simp [bucketAt, updBuckets]
    rw [hbkt]
    have hrefill : refill_tokens limit (refill_tokens limit (bucketAt limit s u now) now) now' =
        refill_tokens limit (bucketAt limit s u now') now' := by
      cases hs : s u with
      | some b => simp only [bucketAt, hs, Option.getD_some]
                  exact refill_tokens_idem limit b now now' hL hnow
      | none =>
        simp only [bucketAt, hs, Option.getD_none]
        unfold freshBucket
        rw [refill_tokens_idem limit ⟨limit, now⟩ now now' hL hnow]
        have hc : (0:ℚ) ≤ (now' - now) / 60 * limit := by
          have : (0:ℚ) ≤ now' - now := by linarith
          positivity
        have h1 : min limit (limit + (now' - now) / 60 * limit) = limit :=
          min_eq_left (by linarith)
        have h2 : min limit (limit + (now' - now') / 60 * limit) = limit := by
          norm_num
        simp [refill_tokens, h1, h2]
    have hcheck : bucket_check limit (refill_tokens limit (bucketAt limit s u now) now) cost' now' =
        bucket_check limit (bucketAt limit s u now') cost' now' := by
      unfold bucket_check
      rw [hrefill]
    rw [hcheck]
    have hupd : ∀ b : Bucket,
        updBuckets (updBuckets s u
          (refill_tokens limit (bucketAt limit s u now) now)) u b =
          updBuckets s u b := by
      intro b
      funext v
      by_cases hv : v = u <;> simp [updBuckets, hv]
    rw [hupd]
  · intro rateLimit dailyLimit llm_enabled streamReq outcome providers streams
      st u est now hrate hbud
    unfold chat_endpoint
    rw [if_neg (by rw [hrate]; simp)]
    dsimp only
    rw [if_pos (by rw [hbud]; simp)]
  · intro d s u est now b hb hle v
    rw [check_budget_current d s u est now b hb (by intro hh; linarith)]
    dsimp only [updBudgets]
    by_cases hv : v = u
    · subst hv; simp [hb]
    · simp [hv]
  · intro d s u est now b' hb'
    cases hs : s u with
    | none =>
      rw [check_budget_none d s u est now hs] at hb'
      dsimp only at hb'
      rw [updBudgets_same] at hb'
      left
      rw [← Option.some_inj.mp hb']
    | some b =>
      by_cases hlt : b.reset_at < now
      · rw [check_budget_reset d s u est now b hs hlt] at hb'
        dsimp only at hb'
        rw [updBudgets_same] at hb'
        left
        rw [← Option.some_inj.mp hb']
      · rw [check_budget_current d s u est now b hs hlt] at hb'
        dsimp only at hb'
        rw [updBudgets_same] at hb'
        have hbb : b = b' := Option.some_inj.mp hb'
        subst hbb
        exact Or.inr ⟨b, rfl, rfl⟩

/-- Witness for `admission_denial_no_side_effects`: capacity 60, a drained
bucket `⟨0, 0⟩`, a denied cost-1 check at time 0.5 and a later check at time
30 that behaves as if the denied check had never run. -/
theorem admission_denial_no_side_effects_witness :
    0 ≤ (60:ℚ) ∧ (1/2:ℚ) ≤ 30 ∧
      ((check_rate_limit 60 (updBuckets (fun _ => none) "alice" ⟨0, 0⟩)
          "alice" 1 (1/2)).1 = false) ∧
      check_rate_limit 60
          (check_rate_limit 60 (updBuckets (fun _ => none) "alice" ⟨0, 0⟩)
            "alice" 1 (1/2)).2 "alice" 1 30 =
        check_rate_limit 60 (updBuckets (fun _ => none) "alice" ⟨0, 0⟩)
          "alice" 1 30 := by
  have hden : (check_rate_limit 60 (updBuckets (fun _ => none) "alice" ⟨0, 0⟩)
      "alice" 1 (1/2)).1 = false := by
    rw [check_rate_limit_as_bucket]
    dsimp only
    have hbkt : bucketAt 60 (updBuckets (fun _ => none) "alice" ⟨0, 0⟩)
        "alice" (1/2) = ⟨0, 0⟩ := by simp [bucketAt, updBuckets]
    rw [hbkt]
    unfold bucket_check
    rw [show refill_tokens 60 ⟨0, 0⟩ (1/2) = ⟨1/2, 1/2⟩ from by
      unfold refill_tokens; norm_num [min_def]]
    norm_num
  exact ⟨by norm_num, by norm_num, hden,
    admission_denial_no_side_effects.2.2.1 60
      (updBuckets (fun _ => none) "alice" ⟨0, 0⟩) "alice" 1 (1/2) 1 30
      (by norm_num) (by norm_num) hden⟩

/-- C10 counterexample: a successful *streaming* completion records no usage.
With both admission checks passing and a streaming request whose provider
stream delivers one fragment and terminates normally (the consumer receives
the fragment and the `[DONE]` marker), the principal's budget record still has
`used = 0` afterwards: `_stream_response` contains no `record_usage` call. -/
theorem streaming_success_records_no_usage :
    chat_endpoint 60 100000 true true (fun _ => AttemptOutcome.ok 0) ["azure"]
        (fun _ => ⟨["Hi".toList], none⟩) ⟨fun _ => none, fun _ => none⟩
        "alice" 10 0 =
      (ChatOutcome.streamed [SSEvent.data "Hi".toList, SSEvent.done],
        ⟨updBuckets (fun _ => none) "alice" ⟨59, 0⟩,
          updBudgets (fun _ => none) "alice" ⟨0, 100000, 0 + 86400⟩⟩, 1) ∧
      (updBudgets (fun _ => none) "alice" ⟨0, 100000, 0 + 86400⟩ : Budgets)
          "alice" = some ⟨0, 100000, 0 + 86400⟩ := by
  have hrc : check_rate_limit 60 (fun _ => none) "alice" 1 0 =
      (true, updBuckets (fun _ => none) "alice" ⟨59, 0⟩) := by
    rw [check_rate_limit_as_bucket]
    have hbkt : bucketAt 60 (fun _ => none) "alice" 0 = ⟨60, 0⟩ := by
      simp [bucketAt, freshBucket]
    rw [hbkt]
    unfold bucket_check
    rw [show refill_tokens 60 ⟨60, 0⟩ 0 = ⟨60, 0⟩ from by
      unfold refill_tokens; norm_num]
    norm_num
  have hbc : check_budget 100000 (fun _ => none) "alice" 10 0 =
      (true, updBudgets (fun _ => none) "alice" ⟨0, 100000, 0 + 86400⟩) := by
    rw [check_budget_none 100000 (fun _ => none) "alice" 10 0 rfl]
    simp +decide
  refine ⟨?_, by simp [updBudgets]⟩
  unfold chat_endpoint
  dsimp only
  rw [hrc, hbc]
  norm_num
  decide

/-- C10 amended: `record_usage` is invoked exactly for confirmed successful
*non-streaming* completions — after such a completion the provider-reported
token count is recorded against the principal's budget; a failed request
(provider failure re-raised or exhaustion) leaves the budget exactly as the
admission check left it, as does the mock path; and a streaming request never
records usage, successful or not. -/
theorem record_usage_only_on_nonstreaming_success :
    (∀ (rateLimit : ℚ) (dailyLimit : ℤ) (outcome : String → AttemptOutcome ℤ)
        (providers : List String) (streams : String → StreamBehavior)
        (st : ChatState) (u : String) (est tokens : ℤ) (now : ℚ)
        (trail : List AttemptRec),
      (check_rate_limit rateLimit st.buckets u 1 now).1 = true →
      (check_budget dailyLimit st.budgets u est now).1 = true →
      complete outcome providers = (trail, .success tokens) →
      chat_endpoint rateLimit dailyLimit true false outcome providers streams
          st u est now =
        (.completed tokens,
          ⟨(check_rate_limit rateLimit st.buckets u 1 now).2,
            record_usage dailyLimit
              (check_budget dailyLimit st.budgets u est now).2 u tokens now⟩,
          trail.length)) ∧
    (∀ (rateLimit : ℚ) (dailyLimit : ℤ) (outcome : String → AttemptOutcome ℤ)
        (providers : List String) (streams : String → StreamBehavior)
        (st : ChatState) (u : String) (est : ℤ) (now : ℚ)
        (trail : List AttemptRec) (k : FailKind),
      (check_rate_limit rateLimit st.buckets u 1 now).1 = true →
      (check_budget dailyLimit st.budgets u est now).1 = true →
      complete outcome providers = (trail, .raised k) →
      chat_endpoint rateLimit dailyLimit true false outcome providers streams
          st u est now =
        (.llmUnavailable,
          ⟨(check_rate_limit rateLimit st.buckets u 1 now).2,
            (check_budget dailyLimit st.budgets u est now).2⟩,
          trail.length)) ∧
    (∀ (rateLimit : ℚ) (dailyLimit : ℤ) (outcome : String → AttemptOutcome ℤ)
        (providers : List String) (streams : String → StreamBehavior)
        (st : ChatState) (u : String) (est : ℤ) (now : ℚ)
        (trail : List AttemptRec) (last : Option FailKind),
      (check_rate_limit rateLimit st.buckets u 1 now).1 = true →
      (check_budget dailyLimit st.budgets u est now).1 = true →
      complete outcome providers = (trail, .allFailed last) →
      chat_endpoint rateLimit dailyLimit true false outcome providers streams
          st u est now =
        (.llmUnavailable,
          ⟨(check_rate_limit rateLimit st.buckets u 1 now).2,
            (check_budget dailyLimit st.budgets u est now).2⟩,
          trail.length)) ∧
    (∀ (rateLimit : ℚ) (dailyLimit : ℤ) (outcome : String → AttemptOutcome ℤ)
        (providers : List String) (streams : String → StreamBehavior)
        (st : ChatState) (u : String) (est : ℤ) (now : ℚ),
      (check_rate_limit rateLimit st.buckets u 1 now).1 = true →
      (check_budget dailyLimit st.budgets u est now).1 = true →
      chat_endpoint rateLimit dailyLimit true true outcome providers streams
          st u est now =
        (.streamed (stream_response providers streams),
          ⟨(check_rate_limit rateLimit st.buckets u 1 now).2,
            (check_budget dailyLimit st.budgets u est now).2⟩, 1)) ∧
    (∀ (rateLimit : ℚ) (dailyLimit : ℤ) (streamReq : Bool)
        (outcome : String → AttemptOutcome ℤ) (providers : List String)
        (streams : String → StreamBehavior) (st : ChatState) (u : String)
        (est : ℤ) (now : ℚ),
      (check_rate_limit rateLimit st.buckets u 1 now).1 = true →
      (check_budget dailyLimit st.budgets u est now).1 = true →
      chat_endpoint rateLimit dailyLimit false streamReq outcome providers
          streams st u est now =
        (.mockCompleted,
          ⟨(check_rate_limit rateLimit st.buckets u 1 now).2,
            (check_budget dailyLimit st.budgets u est now).2⟩, 0)) := by
  refine ⟨?_, ?_, ?_, ?_, ?_⟩
  · intro rateLimit dailyLimit outcome providers streams st u est tokens now
      trail hrate hbud hcomp
    unfold chat_endpoint
    rw [if_neg (by rw [hrate]; simp), if_neg (by rw [hbud]; simp)]
    rw [show (false && true) = false from rfl]
    simp only [Bool.false_eq_true, if_false]
    rw [hcomp]
    simp
  · intro rateLimit dailyLimit outcome providers streams st u est now trail k
      hrate hbud hcomp
    unfold chat_endpoint
    rw [if_neg (by rw [hrate]; simp), if_neg (by rw [hbud]; simp)]
    rw [show (false && true) = false from rfl]
    simp only [Bool.false_eq_true, if_false]
    rw [hcomp]
    simp
  · intro rateLimit dailyLimit outcome providers streams st u est now trail last
      hrate hbud hcomp
    unfold chat_endpoint
    rw [if_neg (by rw [hrate]; simp), if_neg (by rw [hbud]; simp)]
    rw [show (false && true) = false from rfl]
    simp only [Bool.false_eq_true, if_false]
    rw [hcomp]
    simp
  · intro rateLimit dailyLimit outcome providers streams st u est now hrate hbud
    unfold chat_endpoint
    rw [if_neg (by rw [hrate]; simp), if_neg (by rw [hbud]; simp)]
    rw [show (true && true) = true from rfl]
    simp only [if_pos]
  · intro rateLimit dailyLimit streamReq outcome providers streams st u est now
      hrate hbud
    unfold chat_endpoint
    rw [if_neg (by rw [hrate]; simp), if_neg (by rw [hbud]; simp)]
    rw [show (streamReq && false) = false from Bool.and_false streamReq]
    simp only [Bool.false_eq_true, if_false]

/-- Witness for `record_usage_only_on_nonstreaming_success`: a successful
non-streaming completion returning 37 tokens records 37 tokens against the
principal's budget. -/
theorem record_usage_only_on_nonstreaming_success_witness :
    ((check_rate_limit 60
        (⟨fun _ => none, fun _ => none⟩ : ChatState).buckets "alice" 1 0).1 =
      true) ∧
    ((check_budget 100000
        (⟨fun _ => none, fun _ => none⟩ : ChatState).budgets "alice" 10 0).1 =
      true) ∧
    (complete (fun _ => AttemptOutcome.ok (37:ℤ)) ["azure"] =
      ([⟨"azure", 1⟩], .success 37)) ∧
    chat_endpoint 60 100000 true false (fun _ => AttemptOutcome.ok (37:ℤ))
        ["azure"] (fun _ => ⟨[], none⟩) ⟨fun _ => none, fun _ => none⟩
        "alice" 10 0 =
      (.completed 37,
        ⟨(check_rate_limit 60
            (⟨fun _ => none, fun _ => none⟩ : ChatState).buckets "alice" 1 0).2,
          record_usage 100000
            (check_budget 100000
              (⟨fun _ => none, fun _ => none⟩ : ChatState).budgets
              "alice" 10 0).2 "alice" 37 0⟩,
        ([⟨"azure", 1⟩] : List AttemptRec).length) := by
  have hrate : (check_rate_limit 60
      (⟨fun _ => none, fun _ => none⟩ : ChatState).buckets "alice" 1 0).1 =
      true := by
    rw [check_rate_limit_as_bucket]
    dsimp only
    rw [show bucketAt 60 (fun _ => none) "alice" 0 = ⟨60, 0⟩ from by
      simp [bucketAt, freshBucket]]
    unfold bucket_check
    rw [show refill_tokens 60 ⟨60, 0⟩ 0 = ⟨60, 0⟩ from by
      unfold refill_tokens; norm_num]
    norm_num
  have hbud : (check_budget 100000
      (⟨fun _ => none, fun _ => none⟩ : ChatState).budgets "alice" 10 0).1 =
      true := by
    dsimp only
    rw [check_budget_none 100000 (fun _ => none) "alice" 10 0 rfl]
    decide
  exact ⟨hrate, hbud, by decide,
    record_usage_only_on_nonstreaming_success.1 60 100000
      (fun _ => AttemptOutcome.ok (37:ℤ)) ["azure"] (fun _ => ⟨[], none⟩)
      ⟨fun _ => none, fun _ => none⟩ "alice" 10 37 0 [⟨"azure", 1⟩]
      hrate hbud (by decide)⟩

/-! ## LLMGateway.complete (`app/llm/gateway.py` lines 190-362)

The provider loop `for attempt, provider in enumerate(self.providers, 1)`.
Each attempt either succeeds (the parsed result is returned) or fails with one
of the classified retryable exception kinds; on failure the loop advances to
the next provider when `attempt < len(self.providers)`, and otherwise
re-raises (`raise` with no argument) the provider's own exception.  The
`ServiceUnavailableError("All LLM providers failed. Last error: ...")` at the
end of the function runs only when the loop body never raised or returned.
The audit trail records one entry per attempt. -/

end KnowledgeHub
